import Mathlib

/-!
# Verification of the album downloader's timestamp / tracklist / planning core

Shallow embedding of the pure core of `download_album.py`:

* `timestamp_to_seconds` — the timestamp parser (`MM:SS` / `HH:MM:SS` → seconds);
* `parse_config` / `processLine` — the `album.txt` parser (directives, comments,
  tracklist lines matched against the regex);
* `split_audio` — the segment planner (start offsets and durations handed to the
  `ffmpeg` transcoder, file-name sanitization);
* `add_metadata` — the per-track tag records (title / artist / album / track
  number string / year) handed to the `mutagen` tagger.

Text is modelled as `List Char`.  Subprocess side effects (yt-dlp, ffmpeg,
ffprobe, mutagen) are external collaborators: the embedding captures the exact
values the Python code computes and passes to them.  The measured total
duration (a Python float) and the computed segment durations are modelled as
rationals `ℚ`; timestamp arithmetic is integer arithmetic in the source and is
modelled as `Int`.  Python's `int()` accepts, beyond an optional sign and
decimal digits, surrounding whitespace, underscore digit separators, and
non-ASCII decimal digits; the model `pyInt` covers the sign-and-ASCII-digit
core, which is the full behaviour on the timestamp grammar the claims are
about.  Python's `str.strip`/`\s` also accept non-ASCII whitespace; within a
single line produced by `str.splitlines` the ASCII whitespace characters that
can occur are space and tab, which is what `wsChar` models.
-/

/-- ASCII whitespace that can occur inside one line of the config file
(space and horizontal tab); models Python's `\s` / `str.strip` there. -/
def wsChar (c : Char) : Bool :=
  c = ' ' || c = '\t'

/-- Python `str.strip()`: remove leading and trailing whitespace. -/
def pyStrip (l : List Char) : List Char :=
  ((l.dropWhile wsChar).reverse.dropWhile wsChar).reverse

/-- Python `str.split(sep)` for a one-character separator and no maxsplit:
splits on every occurrence, keeping empty parts (`"".split(":") == [""]`). -/
def splitCh (sep : Char) : List Char → List (List Char)
  | [] => [[]]
  | c :: rest =>
    match splitCh sep rest with
    | [] => [[]]
    | g :: gs => if c = sep then [] :: g :: gs else (c :: g) :: gs

/-- Decimal value of a digit string (the value Python's `int()` returns on a
string of decimal digits). -/
def decVal (l : List Char) : Nat :=
  l.foldl (fun a c => a * 10 + (c.toNat - '0'.toNat)) 0

/-- Python `int(s)` on the sign-and-ASCII-digit core: an optional single `+`
or `-` sign followed by one or more decimal digits; everything else fails
(`ValueError`), modelled as `none`. -/
def pyInt (l : List Char) : Option Int :=
  match l with
  | [] => none
  | c :: rest =>
    if c = '+' then
      if rest = [] then none
      else if rest.all Char.isDigit then some (decVal rest) else none
    else if c = '-' then
      if rest = [] then none
      else if rest.all Char.isDigit then some (-(decVal rest : Int)) else none
    else if (c :: rest).all Char.isDigit then some (decVal (c :: rest)) else none

/-- `timestamp_to_seconds` from the source: split on `":"`; two fields are
minutes:seconds, three fields are hours:minutes:seconds, anything else (or a
field `int()` rejects) raises `ValueError`, modelled as `Except.error`. -/
def timestamp_to_seconds (l : List Char) : Except (List Char) Int :=
  match splitCh ':' l with
  | [m, s] =>
    match pyInt m, pyInt s with
    | some mv, some sv => .ok (mv * 60 + sv)
    | _, _ => .error ("invalid literal for int".data)
  | [hh, m, s] =>
    match pyInt hh, pyInt m, pyInt s with
    | some hv, some mv, some sv => .ok (hv * 3600 + mv * 60 + sv)
    | _, _, _ => .error ("invalid literal for int".data)
  | _ => .error ("Invalid timestamp format: ".data ++ l)

deriving instance DecidableEq for Except

/-- `title.replace("/", "-")` from `split_audio`: the pattern is a single
character, so the replacement acts independently on each character. -/
def pySafe (title : List Char) : List Char :=
  title.map (fun c => if c = '/' then '-' else c)

/-- One planned segment: the values `split_audio` computes for a track and
passes to the external transcoder (`ffmpeg`). -/
structure Segment where
  index : Nat
  safeTitle : List Char
  start : ℚ
  duration : ℚ

deriving instance DecidableEq for Segment

deriving instance Repr for Segment

/-- The duration computation of the `split_audio` loop body: for a non-last
entry (`i < len(tracklist)`, i.e. `rest` non-empty) the duration is the next
entry's parsed start minus this entry's parsed start; for the last entry it is
`total_duration` minus this entry's parsed start. -/
def nextDuration (T : ℚ) (s0 : Int) (rest : List (List Char × List Char)) :
    Except (List Char) ℚ :=
  match rest with
  | [] => .ok (T - (s0 : ℚ))
  | (_, st1) :: _ =>
    match timestamp_to_seconds st1 with
    | .error e => .error e
    | .ok s1 => .ok ((s1 : ℚ) - (s0 : ℚ))

/-- The loop of `split_audio`: `i` is the 1-based index
(`enumerate(tracklist, 1)`); parse this entry's start, compute the duration
via `nextDuration`, recurse on the remaining entries, and emit this entry's
segment in front.  An `Except.error` models the `ValueError` aborting the
loop. -/
def goSplit (T : ℚ) : Nat → List (List Char × List Char) → Except (List Char) (List Segment)
  | _, [] => .ok []
  | i, (title, st) :: rest =>
    (timestamp_to_seconds st).bind fun s0 =>
      (nextDuration T s0 rest).bind fun d =>
        (goSplit T (i + 1) rest).bind fun segs =>
          .ok ({ index := i, safeTitle := pySafe title, start := (s0 : ℚ), duration := d } :: segs)

/-- `split_audio` from the source (its pure planning content): tracklist
entries are `(title, timestamp)` pairs as stored by `parse_config`. -/
def split_audio (tracklist : List (List Char × List Char)) (total_duration : ℚ) :
    Except (List Char) (List Segment) :=
  goSplit total_duration 1 tracklist

/-- The record of tag values `add_metadata` hands to the external tagger
(mutagen) for one file. -/
structure TagRecord where
  title : List Char
  artist : List Char
  album : List Char
  trck : List Char
  year : Option (List Char)

deriving instance DecidableEq for TagRecord

deriving instance Repr for TagRecord

/-- The loop body of `add_metadata`: `i` is the 1-based index from
`enumerate(zip(files, tracklist), 1)` and `n = len(tracklist)`; the track
number frame is the f-string `f"{i}/{n}"`.  The year frame is added only when
`album_info.get("year")` is truthy (present and non-empty). -/
def tagsGo (artist album : List Char) (year : Option (List Char)) (n : Nat) :
    Nat → List (List Char × (List Char × List Char)) → List TagRecord
  | _, [] => []
  | i, (_fp, (title, _ts)) :: rest =>
    { title := title
      artist := artist
      album := album
      trck := (Nat.repr i).data ++ '/' :: (Nat.repr n).data
      year := match year with
        | some y => if y = [] then none else some y
        | none => none } :: tagsGo artist album year n (i + 1) rest

/-- `add_metadata` from the source (its pure content): the list of tag records
written, one per element of `zip(files, tracklist)`. -/
def add_metadata (files : List (List Char)) (tracklist : List (List Char × List Char))
    (artist album : List Char) (year : Option (List Char)) : List TagRecord :=
  tagsGo artist album year tracklist.length 1 (files.zip tracklist)

/-- The `config` dictionary built by `parse_config`: the four directive values
(`None` initially, modelled as `none`) and the tracklist of
`(title, timestamp)` pairs. -/
structure AlbumConfig where
  url : Option (List Char) := none
  artist : Option (List Char) := none
  album : Option (List Char) := none
  year : Option (List Char) := none
  tracklist : List (List Char × List Char) := []

deriving instance DecidableEq for AlbumConfig

deriving instance Repr for AlbumConfig

/-- The initial `config` dictionary (all directives `None`, empty tracklist). -/
def initConfig : AlbumConfig := {}

/-- Tail of the tracklist-line regex `^(\d+:\d+(?::\d+)?)\s+(.+)$` after the
timestamp group `ts` has been matched: `\s+` then a non-empty remainder `.+`.
When everything after the timestamp is whitespace, the regex backtracks and
the title group captures the final whitespace character. -/
def finishEntry (ts : List Char) (rest : List Char) : Option (List Char × List Char) :=
  if (rest.takeWhile wsChar).isEmpty then none
  else if (rest.dropWhile wsChar).isEmpty then
    if 2 ≤ rest.length then
      match rest.getLast? with
      | some c => some (ts, [c])
      | none => none
    else none
  else some (ts, rest.dropWhile wsChar)

/-- `re.match(r'^(\d+:\d+(?::\d+)?)\s+(.+)$', line)` from `parse_config`:
returns the `(timestamp, title)` groups on a match.  Digit runs are maximal
(a shorter run would leave a digit where `:` or `\s` is required), so the
backtracking regex is equivalent to this greedy matcher. -/
def matchEntry (l : List Char) : Option (List Char × List Char) :=
  let d1 := l.takeWhile Char.isDigit
  if d1.isEmpty then none
  else
    match l.dropWhile Char.isDigit with
    | [] => none
    | c0 :: r1 =>
      if c0 = ':' then
        let d2 := r1.takeWhile Char.isDigit
        if d2.isEmpty then none
        else
          match r1.dropWhile Char.isDigit with
          | [] => finishEntry (d1 ++ ':' :: d2) []
          | c1 :: r2 =>
            if c1 = ':' then
              let d3 := r2.takeWhile Char.isDigit
              if d3.isEmpty then none
              else finishEntry (d1 ++ ':' :: d2 ++ ':' :: d3) (r2.dropWhile Char.isDigit)
            else finishEntry (d1 ++ ':' :: d2) (c1 :: r2)
      else none

/-- Whether the stripped line is taken by one of the four `key: value`
directive branches of `parse_config` (checked before the tracklist regex). -/
def isDirective (l : List Char) : Bool :=
  "url:".data.isPrefixOf l || "artist:".data.isPrefixOf l ||
    "album:".data.isPrefixOf l || "year:".data.isPrefixOf l

/-- One iteration of the `for line in content.splitlines()` loop of
`parse_config`: strip the line; skip blanks and `#` comments; a line starting
with `url:` / `artist:` / `album:` / `year:` stores everything after the first
colon, stripped (for these prefixes `split(":", 1)[1]` is the text after the
prefix's colon); otherwise try the tracklist regex and on a match append
`(title.strip(), timestamp)`. -/
def processLine (c : AlbumConfig) (raw : List Char) : AlbumConfig :=
  let l := pyStrip raw
  if l = [] then c
  else if l.head? = some '#' then c
  else if "url:".data.isPrefixOf l then { c with url := some (pyStrip (l.drop 4)) }
  else if "artist:".data.isPrefixOf l then { c with artist := some (pyStrip (l.drop 7)) }
  else if "album:".data.isPrefixOf l then { c with album := some (pyStrip (l.drop 6)) }
  else if "year:".data.isPrefixOf l then { c with year := some (pyStrip (l.drop 5)) }
  else
    match matchEntry l with
    | some (ts, title) => { c with tracklist := c.tracklist ++ [(pyStrip title, ts)] }
    | none => c

/-- The whole line loop of `parse_config`. -/
def processLines (c : AlbumConfig) (lines : List (List Char)) : AlbumConfig :=
  lines.foldl processLine c

/-- The required-field validation of `parse_config`: a field is missing when it
is falsy (`None` or the empty string; the tracklist when empty), collected in
source order url, artist, album, tracklist. -/
def truthyStr : Option (List Char) → Bool
  | none => false
  | some s => !s.isEmpty

/-- The `missing` list built by `parse_config`. -/
def missingFields (c : AlbumConfig) : List (List Char) :=
  (if truthyStr c.url then [] else ["url".data]) ++
    (if truthyStr c.artist then [] else ["artist".data]) ++
      (if truthyStr c.album then [] else ["album".data]) ++
        (if c.tracklist.isEmpty then ["tracklist".data] else [])

/-- `parse_config` on the file's lines: run the line loop, then abort
(`sys.exit(1)`, modelled as `Except.error` carrying the missing-field names)
when any required field is missing. -/
def parse_config (lines : List (List Char)) : Except (List (List Char)) AlbumConfig :=
  let c := processLines initConfig lines
  let m := missingFields c
  if m.isEmpty then .ok c else .error m

/-- The tracklist entry (if any) a single raw line contributes in
`parse_config`: the same classification chain as `processLine`, projected onto
the tracklist. -/
def entryOfLine (raw : List Char) : Option (List Char × List Char) :=
  let l := pyStrip raw
  if l = [] then none
  else if l.head? = some '#' then none
  else if isDirective l then none
  else
    match matchEntry l with
    | some (ts, title) => some (pyStrip title, ts)
    | none => none

/-- A non-empty run of decimal digits (the `\d+` of the regex / the `D+` of
the spec's grammar). -/
def digitRun (d : List Char) : Prop :=
  d ≠ [] ∧ ∀ c ∈ d, c.isDigit = true

/-- The spec's timestamp grammar `D+:D+` or `D+:D+:D+`. -/
def tsShape (t : List Char) : Prop :=
  (∃ d1 d2, digitRun d1 ∧ digitRun d2 ∧ t = d1 ++ ':' :: d2) ∨
    (∃ d1 d2 d3, digitRun d1 ∧ digitRun d2 ∧ digitRun d3 ∧ t = d1 ++ ':' :: d2 ++ ':' :: d3)

/-- The spec's acceptance condition for a tracklist line: a timestamp, then at
least one whitespace character, then a non-empty remainder. -/
def entryShape (l : List Char) : Prop :=
  ∃ t w r, tsShape t ∧ w ≠ [] ∧ (∀ c ∈ w, wsChar c = true) ∧ r ≠ [] ∧ l = t ++ w ++ r

/-! ## Helper lemmas -/

theorem wsChar_cases {c : Char} (h : wsChar c = true) : c = ' ' ∨ c = '\t' := by
  simpa [wsChar] using h

theorem ws_not_digit {c : Char} (h : wsChar c = true) : c.isDigit = false := by
  rcases wsChar_cases h with h | h <;> subst h <;> decide

theorem ws_ne_colon {c : Char} (h : wsChar c = true) : c ≠ ':' := by
  rcases wsChar_cases h with h | h <;> subst h <;> decide

theorem digit_ne_colon {c : Char} (h : c.isDigit = true) : c ≠ ':' := by
  intro hc
  subst hc
  exact absurd h (by decide)

theorem takeWhile_append_all {α : Type} {p : α → Bool} :
    ∀ (a b : List α), (∀ c ∈ a, p c = true) → (a ++ b).takeWhile p = a ++ b.takeWhile p
  | [], _, _ => rfl
  | c :: a, b, h => by
    have hc : p c = true := h c (List.mem_cons_self c a)
    rw [List.cons_append, List.takeWhile_cons_of_pos hc,
      takeWhile_append_all a b (fun x hx => h x (List.mem_cons_of_mem c hx)), List.cons_append]

theorem dropWhile_append_all {α : Type} {p : α → Bool} :
    ∀ (a b : List α), (∀ c ∈ a, p c = true) → (a ++ b).dropWhile p = b.dropWhile p
  | [], _, _ => rfl
  | c :: a, b, h => by
    have hc : p c = true := h c (List.mem_cons_self c a)
    rw [List.cons_append, List.dropWhile_cons_of_pos hc,
      dropWhile_append_all a b (fun x hx => h x (List.mem_cons_of_mem c hx))]

theorem splitCh_ne_nil (sep : Char) : ∀ l : List Char, splitCh sep l ≠ [] := by
  intro l
  cases l with
  | nil => simp [splitCh]
  | cons c rest =>
    simp only [splitCh]
    cases splitCh sep rest with
    | nil => simp
    | cons g gs =>
      by_cases hc : c = sep <;> simp [hc]

theorem splitCh_no_sep {sep : Char} :
    ∀ (a : List Char), (∀ c ∈ a, c ≠ sep) → splitCh sep a = [a]
  | [], _ => rfl
  | c :: a, h => by
    have ha := splitCh_no_sep a (fun x hx => h x (List.mem_cons_of_mem c hx))
    simp [splitCh, ha, h c (List.mem_cons_self c a)]

theorem splitCh_append_sep {sep : Char} :
    ∀ (a b : List Char), (∀ c ∈ a, c ≠ sep) →
      splitCh sep (a ++ sep :: b) = a :: splitCh sep b
  | [], b, _ => by
    simp only [List.nil_append, splitCh]
    cases hb : splitCh sep b with
    | nil => exact absurd hb (splitCh_ne_nil sep b)
    | cons g gs => simp
  | c :: a, b, h => by
    have ha := splitCh_append_sep a b (fun x hx => h x (List.mem_cons_of_mem c hx))
    simp [splitCh, ha, h c (List.mem_cons_self c a)]

theorem pyInt_digitRun {d : List Char} (h : digitRun d) : pyInt d = some (decVal d) := by
  obtain ⟨hne, hall⟩ := h
  cases d with
  | nil => exact absurd rfl hne
  | cons c t =>
    have hc : c.isDigit = true := hall c (List.mem_cons_self c t)
    have hplus : ¬c = '+' := by
      intro hcp
      subst hcp
      exact absurd hc (by decide)
    have hminus : ¬c = '-' := by
      intro hcm
      subst hcm
      exact absurd hc (by decide)
    have hall' : (c :: t).all Char.isDigit = true := List.all_eq_true.mpr hall
    simp [pyInt, hplus, hminus, hall']

theorem timestamp_two {d1 d2 : List Char} (h1 : digitRun d1) (h2 : digitRun d2) :
    timestamp_to_seconds (d1 ++ ':' :: d2) = .ok ((decVal d1 : Int) * 60 + (decVal d2 : Int)) := by
  have hsplit : splitCh ':' (d1 ++ ':' :: d2) = [d1, d2] := by
    rw [splitCh_append_sep d1 d2 (fun c hc => digit_ne_colon (h1.2 c hc)),
      splitCh_no_sep d2 (fun c hc => digit_ne_colon (h2.2 c hc))]
  simp [timestamp_to_seconds, hsplit, pyInt_digitRun h1, pyInt_digitRun h2]

theorem timestamp_three {d1 d2 d3 : List Char}
    (h1 : digitRun d1) (h2 : digitRun d2) (h3 : digitRun d3) :
    timestamp_to_seconds (d1 ++ ':' :: d2 ++ ':' :: d3) =
      .ok ((decVal d1 : Int) * 3600 + (decVal d2 : Int) * 60 + (decVal d3 : Int)) := by
  have hinner : splitCh ':' (d2 ++ ':' :: d3) = [d2, d3] := by
    rw [splitCh_append_sep d2 d3 (fun c hc => digit_ne_colon (h2.2 c hc)),
      splitCh_no_sep d3 (fun c hc => digit_ne_colon (h3.2 c hc))]
  have hsplit : splitCh ':' (d1 ++ ':' :: (d2 ++ ':' :: d3)) = [d1, d2, d3] := by
    rw [splitCh_append_sep d1 (d2 ++ ':' :: d3) (fun c hc => digit_ne_colon (h1.2 c hc)), hinner]
  have hassoc : d1 ++ ':' :: d2 ++ ':' :: d3 = d1 ++ ':' :: (d2 ++ ':' :: d3) := by
    simp
  rw [hassoc]
  simp [timestamp_to_seconds, hsplit, pyInt_digitRun h1, pyInt_digitRun h2, pyInt_digitRun h3]

/-! ## Claim theorems -/

/-- C3: for every string of the form `D+:D+`, `timestamp_to_seconds` returns
minutes×60 + seconds; for every string of the form `D+:D+:D+` it returns
hours×3600 + minutes×60 + seconds; the result is non-negative; and parsing is
a pure function (the same string always yields the same value). -/
theorem c3_timestamp_arithmetic : ∀ d1 d2 d3 : List Char,
    digitRun d1 → digitRun d2 → digitRun d3 →
    (timestamp_to_seconds (d1 ++ ':' :: d2) = .ok ((decVal d1 : Int) * 60 + (decVal d2 : Int))
        ∧ 0 ≤ (decVal d1 : Int) * 60 + (decVal d2 : Int))
      ∧ (timestamp_to_seconds (d1 ++ ':' :: d2 ++ ':' :: d3)
            = .ok ((decVal d1 : Int) * 3600 + (decVal d2 : Int) * 60 + (decVal d3 : Int))
          ∧ 0 ≤ (decVal d1 : Int) * 3600 + (decVal d2 : Int) * 60 + (decVal d3 : Int))
      ∧ ∀ l l' : List Char, l = l' → timestamp_to_seconds l = timestamp_to_seconds l' := by
  intro d1 d2 d3 h1 h2 h3
  refine ⟨⟨timestamp_two h1 h2, by positivity⟩,
    ⟨timestamp_three h1 h2 h3, by positivity⟩, ?_⟩
  intro l l' hll
  rw [hll]

/-- Witness for C3 at the concrete timestamps `"2:05"` and `"1:23:45"`. -/
theorem c3_timestamp_arithmetic_witness :
    (digitRun "2".data ∧ digitRun "05".data ∧ digitRun "45".data)
      ∧ ((timestamp_to_seconds ("2".data ++ ':' :: "05".data)
            = .ok ((decVal "2".data : Int) * 60 + (decVal "05".data : Int))
          ∧ 0 ≤ (decVal "2".data : Int) * 60 + (decVal "05".data : Int))
        ∧ (timestamp_to_seconds ("2".data ++ ':' :: "05".data ++ ':' :: "45".data)
              = .ok ((decVal "2".data : Int) * 3600 + (decVal "05".data : Int) * 60
                + (decVal "45".data : Int))
            ∧ 0 ≤ (decVal "2".data : Int) * 3600 + (decVal "05".data : Int) * 60
              + (decVal "45".data : Int))
        ∧ ∀ l l' : List Char, l = l' → timestamp_to_seconds l = timestamp_to_seconds l')
      ∧ timestamp_to_seconds "2:05".data = .ok 125 :=
  ⟨⟨⟨by decide, by decide⟩, ⟨by decide, by decide⟩, ⟨by decide, by decide⟩⟩,
    c3_timestamp_arithmetic "2".data "05".data "45".data
      ⟨by decide, by decide⟩ ⟨by decide, by decide⟩ ⟨by decide, by decide⟩,
    by decide⟩

/-- C6: a string whose number of colon-separated fields is not 2 and not 3, or
in which some field is not numeric, makes `timestamp_to_seconds` raise
(`Except.error`), never a silent default. -/
theorem c6_malformed_timestamp_rejected : ∀ l : List Char,
    ((splitCh ':' l).length ≠ 2 ∧ (splitCh ':' l).length ≠ 3)
        ∨ (∃ p ∈ splitCh ':' l, pyInt p = none) →
    ∃ e, timestamp_to_seconds l = .error e := by
  intro l h
  match hsp : splitCh ':' l with
  | [] =>
    exact ⟨"Invalid timestamp format: ".data ++ l, by simp [timestamp_to_seconds, hsp]⟩
  | [a] =>
    exact ⟨"Invalid timestamp format: ".data ++ l, by simp [timestamp_to_seconds, hsp]⟩
  | [a, b] =>
    rw [hsp] at h
    have hex : ∃ p ∈ [a, b], pyInt p = none := by
      rcases h with ⟨h2, _⟩ | hex
      · exact absurd rfl h2
      · exact hex
    refine ⟨"invalid literal for int".data, ?_⟩
    cases hpa : pyInt a with
    | none => simp [timestamp_to_seconds, hsp, hpa]
    | some va =>
      cases hpb : pyInt b with
      | none => simp [timestamp_to_seconds, hsp, hpa, hpb]
      | some vb =>
        rcases hex with ⟨p, hp, hpn⟩
        simp only [List.mem_cons] at hp
        rcases hp with rfl | rfl | hnil
        · exact absurd hpn (by simp [hpa])
        · exact absurd hpn (by simp [hpb])
        · exact absurd hnil (List.not_mem_nil p)
  | [a, b, c] =>
    rw [hsp] at h
    have hex : ∃ p ∈ [a, b, c], pyInt p = none := by
      rcases h with ⟨_, h3⟩ | hex
      · exact absurd rfl h3
      · exact hex
    refine ⟨"invalid literal for int".data, ?_⟩
    cases hpa : pyInt a with
    | none => simp [timestamp_to_seconds, hsp, hpa]
    | some va =>
      cases hpb : pyInt b with
      | none => simp [timestamp_to_seconds, hsp, hpa, hpb]
      | some vb =>
        cases hpc : pyInt c with
        | none => simp [timestamp_to_seconds, hsp, hpa, hpb, hpc]
        | some vc =>
          rcases hex with ⟨p, hp, hpn⟩
          simp only [List.mem_cons] at hp
          rcases hp with rfl | rfl | rfl | hnil
          · exact absurd hpn (by simp [hpa])
          · exact absurd hpn (by simp [hpb])
          · exact absurd hpn (by simp [hpc])
          · exact absurd hnil (List.not_mem_nil p)
  | a :: b :: c :: d :: rest =>
    exact ⟨"Invalid timestamp format: ".data ++ l, by simp [timestamp_to_seconds, hsp]⟩

/-- Witness for C6 at the claim's own examples `"abc"`, `"1:2:3:4"`, `""`. -/
theorem c6_malformed_timestamp_rejected_witness :
    (((splitCh ':' "abc".data).length ≠ 2 ∧ (splitCh ':' "abc".data).length ≠ 3)
        ∧ ((splitCh ':' "1:2:3:4".data).length ≠ 2 ∧ (splitCh ':' "1:2:3:4".data).length ≠ 3)
        ∧ ((splitCh ':' ([] : List Char)).length ≠ 2 ∧ (splitCh ':' ([] : List Char)).length ≠ 3))
      ∧ (∃ e, timestamp_to_seconds "abc".data = .error e)
      ∧ (∃ e, timestamp_to_seconds "1:2:3:4".data = .error e)
      ∧ (∃ e, timestamp_to_seconds ([] : List Char) = .error e)
      ∧ (∃ e, timestamp_to_seconds "1:x".data = .error e) :=
  ⟨⟨⟨by decide, by decide⟩, ⟨by decide, by decide⟩, ⟨by decide, by decide⟩⟩,
    c6_malformed_timestamp_rejected "abc".data (Or.inl ⟨by decide, by decide⟩),
    c6_malformed_timestamp_rejected "1:2:3:4".data (Or.inl ⟨by decide, by decide⟩),
    c6_malformed_timestamp_rejected ([] : List Char) (Or.inl ⟨by decide, by decide⟩),
    c6_malformed_timestamp_rejected "1:x".data (Or.inr ⟨"x".data, by decide, by decide⟩)⟩

theorem tagsGo_length (artist album : List Char) (year : Option (List Char)) (n : Nat) :
    ∀ (ps : List (List Char × (List Char × List Char))) (i : Nat),
      (tagsGo artist album year n i ps).length = ps.length
  | [], _ => rfl
  | (fp, (t, s)) :: ps, i => by
    simp [tagsGo, tagsGo_length artist album year n ps (i + 1)]

theorem tagsGo_get_trck (artist album : List Char) (year : Option (List Char)) (n : Nat) :
    ∀ (ps : List (List Char × (List Char × List Char))) (i k : Nat)
      (h : k < (tagsGo artist album year n i ps).length),
      ((tagsGo artist album year n i ps).get ⟨k, h⟩).trck
        = (Nat.repr (i + k)).data ++ '/' :: (Nat.repr n).data
  | (fp, (t, s)) :: ps, i, 0, h => by simp [tagsGo]
  | (fp, (t, s)) :: ps, i, k + 1, h => by
    simp only [tagsGo, List.get_cons_succ]
    rw [tagsGo_get_trck artist album year n ps (i + 1) k]
    have hik : i + 1 + k = i + (k + 1) := by omega
    rw [hik]

/-- C7: for a tracklist of `n` entries (and one produced file per entry), the
tag record for the `k`-th file (0-based) carries the track-number string
`"(k+1)/n"`: 1-based index over total track count. -/
theorem c7_track_number_string :
    ∀ (files : List (List Char)) (tracklist : List (List Char × List Char))
      (artist album : List Char) (year : Option (List Char)),
      files.length = tracklist.length →
      (add_metadata files tracklist artist album year).length = tracklist.length
        ∧ ∀ k (h : k < (add_metadata files tracklist artist album year).length),
            ((add_metadata files tracklist artist album year).get ⟨k, h⟩).trck
              = (Nat.repr (k + 1)).data ++ '/' :: (Nat.repr tracklist.length).data := by
  intro files tracklist artist album year hlen
  have hzip : (files.zip tracklist).length = tracklist.length := by
    rw [List.length_zip, hlen, min_self]
  constructor
  · rw [add_metadata, tagsGo_length, hzip]
  · intro k h
    have hg := tagsGo_get_trck artist album year tracklist.length (files.zip tracklist) 1 k h
    rw [show (1 : Nat) + k = k + 1 from by omega] at hg
    exact hg

/-- Witness for C7: a 12-track album; track 7 is tagged `"7/12"`. -/
theorem c7_track_number_string_witness :
    ((List.replicate 12 "f".data).length
        = (List.replicate 12 ("t".data, "0:00".data)).length)
      ∧ ((add_metadata (List.replicate 12 "f".data)
            (List.replicate 12 ("t".data, "0:00".data)) "AR".data "AL".data none).length
            = (List.replicate 12 ("t".data, "0:00".data)).length
          ∧ ∀ k (h : k < (add_metadata (List.replicate 12 "f".data)
              (List.replicate 12 ("t".data, "0:00".data)) "AR".data "AL".data none).length),
              ((add_metadata (List.replicate 12 "f".data)
                  (List.replicate 12 ("t".data, "0:00".data)) "AR".data "AL".data
                  none).get ⟨k, h⟩).trck
                = (Nat.repr (k + 1)).data
                  ++ '/' :: (Nat.repr (List.replicate 12 ("t".data, "0:00".data)).length).data)
      ∧ ((add_metadata (List.replicate 12 "f".data)
            (List.replicate 12 ("t".data, "0:00".data)) "AR".data "AL".data
            none).get ⟨6, by decide⟩).trck = "7/12".data :=
  ⟨by decide,
    c7_track_number_string (List.replicate 12 "f".data)
      (List.replicate 12 ("t".data, "0:00".data)) "AR".data "AL".data none (by decide),
    by decide⟩

/-- C8: the file-name sanitization replaces every `/` in the title with `-`
and leaves every other character unchanged (same length, pointwise map). -/
theorem c8_title_sanitization :
    ∀ title : List Char,
      (pySafe title).length = title.length
        ∧ ∀ i (h1 : i < (pySafe title).length) (h2 : i < title.length),
            (pySafe title).get ⟨i, h1⟩
              = (if title.get ⟨i, h2⟩ = '/' then '-' else title.get ⟨i, h2⟩) := by
  intro title
  constructor
  · simp [pySafe]
  · intro i h1 h2
    simp [pySafe, List.get_map]

/-- Witness for C8 at the claim's example: `"Intro / Outro"` becomes
`"Intro - Outro"`; position 6 (the `/`) becomes `-`. -/
theorem c8_title_sanitization_witness :
    (6 < (pySafe "Intro / Outro".data).length ∧ 6 < "Intro / Outro".data.length)
      ∧ ((pySafe "Intro / Outro".data).length = "Intro / Outro".data.length
          ∧ ∀ i (h1 : i < (pySafe "Intro / Outro".data).length)
              (h2 : i < "Intro / Outro".data.length),
              (pySafe "Intro / Outro".data).get ⟨i, h1⟩
                = (if "Intro / Outro".data.get ⟨i, h2⟩ = '/' then '-'
                    else "Intro / Outro".data.get ⟨i, h2⟩))
      ∧ pySafe "Intro / Outro".data = "Intro - Outro".data :=
  ⟨⟨by decide, by decide⟩, c8_title_sanitization "Intro / Outro".data, by decide⟩

theorem except_bind_ok {ε α β : Type} (a : α) (f : α → Except ε β) :
    (Except.ok a : Except ε α).bind f = f a := rfl

theorem except_bind_error {ε α β : Type} (e : ε) (f : α → Except ε β) :
    (Except.error e : Except ε α).bind f = .error e := rfl

theorem goSplit_nil (T : ℚ) (j : Nat) : goSplit T j [] = .ok [] := rfl

theorem goSplit_cons (T : ℚ) (j : Nat) (title st : List Char)
    (rest : List (List Char × List Char)) :
    goSplit T j ((title, st) :: rest) =
      (timestamp_to_seconds st).bind fun s0 =>
        (nextDuration T s0 rest).bind fun d =>
          (goSplit T (j + 1) rest).bind fun segs =>
            .ok ({ index := j, safeTitle := pySafe title, start := (s0 : ℚ), duration := d } :: segs) := rfl

theorem nextDuration_nil (T : ℚ) (s0 : Int) : nextDuration T s0 [] = .ok (T - (s0 : ℚ)) := rfl

theorem nextDuration_cons (T : ℚ) (s0 s1 : Int) (t2 st2 : List Char)
    (rest : List (List Char × List Char)) (h : timestamp_to_seconds st2 = .ok s1) :
    nextDuration T s0 ((t2, st2) :: rest) = .ok ((s1 : ℚ) - (s0 : ℚ)) := by
  simp [nextDuration, h]

theorem goSplit_ok (T : ℚ) :
    ∀ (tl : List (List Char × List Char)) (j : Nat) (s : Nat → Int),
      (∀ i (h : i < tl.length), timestamp_to_seconds (tl.get ⟨i, h⟩).2 = .ok (s i)) →
      ∃ segs, goSplit T j tl = .ok segs ∧ segs.length = tl.length ∧
        ∀ i (hi : i < segs.length) (hi' : i < tl.length),
          (segs.get ⟨i, hi⟩).index = j + i ∧
          (segs.get ⟨i, hi⟩).duration =
            (if i + 1 < tl.length then ((s (i + 1) : ℚ) - (s i : ℚ)) else T - (s i : ℚ))
  | [], j, s, hs => ⟨[], rfl, rfl, fun i hi _ => absurd hi (by simp)⟩
  | (title, st) :: rest, j, s, hs => by
    have h0 : timestamp_to_seconds st = .ok (s 0) := hs 0 (by simp)
    have hrest : ∀ i (h : i < rest.length),
        timestamp_to_seconds (rest.get ⟨i, h⟩).2 = .ok (s (i + 1)) := by
      intro i h
      have hh : i + 1 < ((title, st) :: rest).length := by
        simp only [List.length_cons]
        omega
      have hgs := hs (i + 1) hh
      rwa [List.get_cons_succ] at hgs
    obtain ⟨segs', hok', hlen', hget'⟩ := goSplit_ok T rest (j + 1) (fun i => s (i + 1)) hrest
    have hnd : nextDuration T (s 0) rest =
        .ok (if 0 + 1 < ((title, st) :: rest).length then ((s 1 : ℚ) - (s 0 : ℚ))
          else T - (s 0 : ℚ)) := by
      cases rest with
      | nil => simp [nextDuration]
      | cons b rest' =>
        obtain ⟨t2, st2⟩ := b
        have h1 : timestamp_to_seconds st2 = .ok (s 1) := by
          have hr0 := hrest 0 (by simp)
          simpa using hr0
        have hc : 0 + 1 < ((title, st) :: (t2, st2) :: rest').length := by
          simp only [List.length_cons]
          omega
        rw [nextDuration_cons T (s 0) (s 1) t2 st2 rest' h1]
        simp [hc]
    refine ⟨⟨j, pySafe title, (s 0 : ℚ),
        if 0 + 1 < ((title, st) :: rest).length then ((s 1 : ℚ) - (s 0 : ℚ))
          else T - (s 0 : ℚ)⟩ :: segs', ?_, ?_, ?_⟩
    · rw [goSplit_cons, h0]
      simp only [except_bind_ok]
      rw [hnd]
      simp only [except_bind_ok]
      rw [hok']
      simp only [except_bind_ok]
    · simp [hlen']
    · intro i hi hi'
      cases i with
      | zero =>
        constructor
        · simp
        · simp
      | succ k =>
        have hk : k < segs'.length := by
          simp only [List.length_cons] at hi
          omega
        have hk' : k < rest.length := by
          rw [← hlen']
          exact hk
        obtain ⟨hidx, hdur⟩ := hget' k hk hk'
        constructor
        · rw [List.get_cons_succ, hidx]
          omega
        · rw [List.get_cons_succ, hdur]
          by_cases hc : k + 1 < rest.length
          · have hc2 : k + 1 + 1 < ((title, st) :: rest).length := by
              simp only [List.length_cons]
              omega
            simp [hc, hc2]
          · have hc2 : ¬(k + 1 + 1 < ((title, st) :: rest).length) := by
              simp only [List.length_cons]
              omega
            simp [hc, hc2]

theorem goSplit_sum (T : ℚ) :
    ∀ (tl : List (List Char × List Char)) (j : Nat) (s : Nat → Int),
      tl ≠ [] →
      (∀ i (h : i < tl.length), timestamp_to_seconds (tl.get ⟨i, h⟩).2 = .ok (s i)) →
      ∀ segs, goSplit T j tl = .ok segs →
        (segs.map Segment.duration).sum = T - (s 0 : ℚ)
  | [], _, _, hne, _, _, _ => absurd rfl hne
  | (title, st) :: rest, j, s, _, hs, segs, hseg => by
    have h0 : timestamp_to_seconds st = .ok (s 0) := hs 0 (by simp)
    have hrest : ∀ i (h : i < rest.length),
        timestamp_to_seconds (rest.get ⟨i, h⟩).2 = .ok (s (i + 1)) := by
      intro i h
      have hh : i + 1 < ((title, st) :: rest).length := by
        simp only [List.length_cons]
        omega
      have hgs := hs (i + 1) hh
      rwa [List.get_cons_succ] at hgs
    cases rest with
    | nil =>
      rw [goSplit_cons, h0] at hseg
      simp only [except_bind_ok, nextDuration_nil, goSplit_nil, Except.ok.injEq] at hseg
      subst hseg
      simp
    | cons b rest' =>
      obtain ⟨t2, st2⟩ := b
      have h1 : timestamp_to_seconds st2 = .ok (s 1) := by
        have hr0 := hrest 0 (by simp)
        simpa using hr0
      rw [goSplit_cons, h0] at hseg
      simp only [except_bind_ok] at hseg
      rw [nextDuration_cons T (s 0) (s 1) t2 st2 rest' h1] at hseg
      simp only [except_bind_ok] at hseg
      cases hrec : goSplit T (j + 1) ((t2, st2) :: rest') with
      | error e =>
        rw [hrec, except_bind_error] at hseg
        exact Except.noConfusion hseg
      | ok segs' =>
        rw [hrec] at hseg
        simp only [except_bind_ok, Except.ok.injEq] at hseg
        subst hseg
        have ih := goSplit_sum T ((t2, st2) :: rest') (j + 1) (fun i => s (i + 1))
          (by simp) hrest segs' hrec
        simp only [List.map_cons, List.sum_cons, ih]
        ring

/-- C1 counterexample: with tracklist starts [0, 50] and total duration 40
(shorter than the last start), `split_audio` does NOT fail: it emits two
segments to the transcoder, the last with duration −10 ≤ 0, refuting the
claim that planning fails fatally and zero segments are handed over. -/
theorem c1_zero_duration_counterexample :
    split_audio [("a".data, "0:00".data), ("b".data, "0:50".data)] 40
        = .ok [⟨1, "a".data, 0, 50⟩, ⟨2, "b".data, 50, -10⟩]
      ∧ (∀ e, split_audio [("a".data, "0:00".data), ("b".data, "0:50".data)] 40 ≠ .error e)
      ∧ ∃ segs, split_audio [("a".data, "0:00".data), ("b".data, "0:50".data)] 40 = .ok segs
          ∧ segs.length = 2 ∧ ∃ sg ∈ segs, sg.duration ≤ 0 := by
  have h1 : timestamp_to_seconds "0:00".data = .ok 0 := by decide
  have h2 : timestamp_to_seconds "0:50".data = .ok 50 := by decide
  have hok : split_audio [("a".data, "0:00".data), ("b".data, "0:50".data)] 40
      = .ok [⟨1, "a".data, 0, 50⟩, ⟨2, "b".data, 50, -10⟩] := by
    simp only [split_audio, goSplit_cons, goSplit_nil, nextDuration, h1, h2, except_bind_ok]
    norm_num [pySafe]
    decide
  refine ⟨hok, ?_, ⟨_, hok, rfl, ?_⟩⟩
  · intro e he
    rw [hok] at he
    exact Except.noConfusion he
  · refine ⟨⟨2, "b".data, 50, -10⟩, ?_, ?_⟩
    · simp
    · norm_num

/-- C1 amended: the planner performs no duration validation at all: whenever
every timestamp parses, `split_audio` returns a plan with one segment per
tracklist entry — even when some computed duration is ≤ 0 — and hands every
segment to the transcoder. -/
theorem c1_amended_planner_never_rejects :
    ∀ (tracklist : List (List Char × List Char)) (T : ℚ) (s : Nat → Int),
      (∀ i (h : i < tracklist.length),
        timestamp_to_seconds (tracklist.get ⟨i, h⟩).2 = .ok (s i)) →
      ∃ segs, split_audio tracklist T = .ok segs ∧ segs.length = tracklist.length := by
  intro tracklist T s hs
  obtain ⟨segs, hok, hlen, _⟩ := goSplit_ok T tracklist 1 s hs
  exact ⟨segs, hok, hlen⟩

/-- Witness for the amended C1 at the spec's own failing input
(starts [0, 50], total duration 40). -/
theorem c1_amended_planner_never_rejects_witness :
    (∀ i (h : i < ([("a".data, "0:00".data), ("b".data, "0:50".data)] :
        List (List Char × List Char)).length),
      timestamp_to_seconds (([("a".data, "0:00".data), ("b".data, "0:50".data)] :
        List (List Char × List Char)).get ⟨i, h⟩).2
        = .ok (if i = 0 then (0 : Int) else 50))
      ∧ ∃ segs, split_audio [("a".data, "0:00".data), ("b".data, "0:50".data)] 40 = .ok segs
          ∧ segs.length = ([("a".data, "0:00".data), ("b".data, "0:50".data)] :
              List (List Char × List Char)).length :=
  ⟨by decide, c1_amended_planner_never_rejects
    [("a".data, "0:00".data), ("b".data, "0:50".data)] 40
    (fun i => if i = 0 then (0 : Int) else 50) (by decide)⟩

/-- C2: for a non-empty tracklist whose timestamps parse to starts `s i`, the
planner emits one segment per entry, segment `i` (0-based) has 1-based index
`i + 1`, duration `s (i+1) − s i` for every non-last entry, and duration
`T − s (n−1)` for the last entry. -/
theorem c2_planned_durations :
    ∀ (tracklist : List (List Char × List Char)) (T : ℚ) (s : Nat → Int),
      tracklist ≠ [] →
      (∀ i (h : i < tracklist.length),
        timestamp_to_seconds (tracklist.get ⟨i, h⟩).2 = .ok (s i)) →
      ∃ segs, split_audio tracklist T = .ok segs ∧ segs.length = tracklist.length ∧
        ∀ i (hi : i < segs.length) (hi' : i < tracklist.length),
          (segs.get ⟨i, hi⟩).index = i + 1 ∧
          (segs.get ⟨i, hi⟩).duration =
            (if i + 1 < tracklist.length then ((s (i + 1) : ℚ) - (s i : ℚ))
              else T - (s i : ℚ)) := by
  intro tracklist T s _hne hs
  obtain ⟨segs, hok, hlen, hget⟩ := goSplit_ok T tracklist 1 s hs
  refine ⟨segs, hok, hlen, ?_⟩
  intro i hi hi'
  obtain ⟨hidx, hdur⟩ := hget i hi hi'
  refine ⟨?_, hdur⟩
  rw [hidx]
  omega

/-- Witness for C2 at the spec's examples: starts [0, 125, 300] with total
400 give durations [125, 175, 100] and indices [1, 2, 3]; a single entry with
start 0 and total 180 gives one segment of duration 180. -/
theorem c2_planned_durations_witness :
    (([("A".data, "0:00".data), ("B".data, "2:05".data), ("C".data, "5:00".data)] :
        List (List Char × List Char)) ≠ []
      ∧ ∀ i (h : i < ([("A".data, "0:00".data), ("B".data, "2:05".data),
          ("C".data, "5:00".data)] : List (List Char × List Char)).length),
        timestamp_to_seconds (([("A".data, "0:00".data), ("B".data, "2:05".data),
          ("C".data, "5:00".data)] : List (List Char × List Char)).get ⟨i, h⟩).2
          = .ok (if i = 0 then (0 : Int) else if i = 1 then 125 else 300))
      ∧ (∃ segs, split_audio [("A".data, "0:00".data), ("B".data, "2:05".data),
            ("C".data, "5:00".data)] 400 = .ok segs
          ∧ segs.length = ([("A".data, "0:00".data), ("B".data, "2:05".data),
              ("C".data, "5:00".data)] : List (List Char × List Char)).length
          ∧ ∀ i (hi : i < segs.length)
              (hi' : i < ([("A".data, "0:00".data), ("B".data, "2:05".data),
                ("C".data, "5:00".data)] : List (List Char × List Char)).length),
              (segs.get ⟨i, hi⟩).index = i + 1 ∧
              (segs.get ⟨i, hi⟩).duration =
                (if i + 1 < ([("A".data, "0:00".data), ("B".data, "2:05".data),
                    ("C".data, "5:00".data)] : List (List Char × List Char)).length
                  then (((if i + 1 = 0 then (0 : Int) else if i + 1 = 1 then 125
                    else 300) : Int) : ℚ)
                    - (((if i = 0 then (0 : Int) else if i = 1 then 125 else 300) : Int) : ℚ)
                  else 400 - (((if i = 0 then (0 : Int) else if i = 1 then 125
                    else 300) : Int) : ℚ)))
      ∧ split_audio [("A".data, "0:00".data), ("B".data, "2:05".data),
          ("C".data, "5:00".data)] 400
          = .ok [⟨1, "A".data, 0, 125⟩, ⟨2, "B".data, 125, 175⟩, ⟨3, "C".data, 300, 100⟩]
      ∧ split_audio [("A".data, "0:00".data)] 180 = .ok [⟨1, "A".data, 0, 180⟩] := by
  have hA : timestamp_to_seconds "0:00".data = .ok 0 := by decide
  have hB : timestamp_to_seconds "2:05".data = .ok 125 := by decide
  have hC : timestamp_to_seconds "5:00".data = .ok 300 := by decide
  refine ⟨⟨by decide, by decide⟩,
    c2_planned_durations [("A".data, "0:00".data), ("B".data, "2:05".data),
      ("C".data, "5:00".data)] 400
      (fun i => if i = 0 then (0 : Int) else if i = 1 then 125 else 300)
      (by decide) (by decide), ?_, ?_⟩
  · simp only [split_audio, goSplit_cons, goSplit_nil, nextDuration, hA, hB, hC,
      except_bind_ok]
    norm_num [pySafe]
    decide
  · simp only [split_audio, goSplit_cons, goSplit_nil, nextDuration, hA, except_bind_ok]
    norm_num [pySafe]
    decide

/-- C4: for a non-empty tracklist whose timestamps parse to starts `s i`, the
planned segment durations sum to exactly `T − s 0` (the intermediate
differences telescope). -/
theorem c4_durations_sum_telescopes :
    ∀ (tracklist : List (List Char × List Char)) (T : ℚ) (s : Nat → Int),
      tracklist ≠ [] →
      (∀ i (h : i < tracklist.length),
        timestamp_to_seconds (tracklist.get ⟨i, h⟩).2 = .ok (s i)) →
      ∃ segs, split_audio tracklist T = .ok segs
        ∧ (segs.map Segment.duration).sum = T - (s 0 : ℚ) := by
  intro tracklist T s hne hs
  obtain ⟨segs, hok, _, _⟩ := goSplit_ok T tracklist 1 s hs
  exact ⟨segs, hok, goSplit_sum T tracklist 1 s hne hs segs hok⟩

/-- Witness for C4 at starts [0, 125, 300] and total 400: durations sum to
400 − 0. -/
theorem c4_durations_sum_telescopes_witness :
    (([("A".data, "0:00".data), ("B".data, "2:05".data), ("C".data, "5:00".data)] :
        List (List Char × List Char)) ≠ []
      ∧ ∀ i (h : i < ([("A".data, "0:00".data), ("B".data, "2:05".data),
          ("C".data, "5:00".data)] : List (List Char × List Char)).length),
        timestamp_to_seconds (([("A".data, "0:00".data), ("B".data, "2:05".data),
          ("C".data, "5:00".data)] : List (List Char × List Char)).get ⟨i, h⟩).2
          = .ok (if i = 0 then (0 : Int) else if i = 1 then 125 else 300))
      ∧ ∃ segs, split_audio [("A".data, "0:00".data), ("B".data, "2:05".data),
            ("C".data, "5:00".data)] 400 = .ok segs
          ∧ (segs.map Segment.duration).sum
            = 400 - (((if (0 : Nat) = 0 then (0 : Int) else if (0 : Nat) = 1 then 125
              else 300) : Int) : ℚ) :=
  ⟨⟨by decide, by decide⟩,
    c4_durations_sum_telescopes [("A".data, "0:00".data), ("B".data, "2:05".data),
      ("C".data, "5:00".data)] 400
      (fun i => if i = 0 then (0 : Int) else if i = 1 then 125 else 300)
      (by decide) (by decide)⟩

/-- C9: a required directive line with an empty value after the colon (e.g.
`"artist:"`) stores the empty string, and the required-field validation then
treats the field exactly as if it were absent: `parse_config` aborts naming
the field as missing. -/
theorem c9_empty_directive_treated_missing :
    ∀ (c : AlbumConfig) (lines : List (List Char)),
      (processLine c "url:".data = { c with url := some [] }
        ∧ processLine c "artist:".data = { c with artist := some [] }
        ∧ processLine c "album:".data = { c with album := some [] })
      ∧ (∀ c' : AlbumConfig,
          missingFields { c' with url := some [] } = missingFields { c' with url := none }
          ∧ missingFields { c' with artist := some [] }
            = missingFields { c' with artist := none }
          ∧ missingFields { c' with album := some [] }
            = missingFields { c' with album := none })
      ∧ ((processLines initConfig lines).url = some [] →
          ∃ m, parse_config lines = .error m ∧ "url".data ∈ m)
      ∧ ((processLines initConfig lines).artist = some [] →
          ∃ m, parse_config lines = .error m ∧ "artist".data ∈ m)
      ∧ ((processLines initConfig lines).album = some [] →
          ∃ m, parse_config lines = .error m ∧ "album".data ∈ m) := by
  intro c lines
  refine ⟨⟨rfl, rfl, rfl⟩, fun c' => ⟨rfl, rfl, rfl⟩, ?_, ?_, ?_⟩
  · intro hu
    have hmem : "url".data ∈ missingFields (processLines initConfig lines) := by
      simp only [missingFields, hu]
      simp [truthyStr]
    refine ⟨missingFields (processLines initConfig lines), ?_, hmem⟩
    have hne : ¬((missingFields (processLines initConfig lines)).isEmpty = true) := by
      rw [List.isEmpty_iff]
      intro hnil
      rw [hnil] at hmem
      exact List.not_mem_nil _ hmem
    simp only [parse_config]
    rw [if_neg hne]
  · intro ha
    have hmem : "artist".data ∈ missingFields (processLines initConfig lines) := by
      simp only [missingFields, ha]
      simp [truthyStr]
    refine ⟨missingFields (processLines initConfig lines), ?_, hmem⟩
    have hne : ¬((missingFields (processLines initConfig lines)).isEmpty = true) := by
      rw [List.isEmpty_iff]
      intro hnil
      rw [hnil] at hmem
      exact List.not_mem_nil _ hmem
    simp only [parse_config]
    rw [if_neg hne]
  · intro hb
    have hmem : "album".data ∈ missingFields (processLines initConfig lines) := by
      simp only [missingFields, hb]
      simp [truthyStr]
    refine ⟨missingFields (processLines initConfig lines), ?_, hmem⟩
    have hne : ¬((missingFields (processLines initConfig lines)).isEmpty = true) := by
      rw [List.isEmpty_iff]
      intro hnil
      rw [hnil] at hmem
      exact List.not_mem_nil _ hmem
    simp only [parse_config]
    rw [if_neg hne]

/-- Witness for C9 on the one-line file `"artist:"`: the empty value is
stored, and the run aborts with "artist" among the missing fields. -/
theorem c9_empty_directive_treated_missing_witness :
    ((processLines initConfig ["artist:".data]).artist = some [])
      ∧ ∃ m, parse_config ["artist:".data] = .error m ∧ "artist".data ∈ m :=
  ⟨by decide,
    (c9_empty_directive_treated_missing initConfig ["artist:".data]).2.2.2.1 (by decide)⟩

/-- C10: a directive line stores everything after the first colon with
leading/trailing whitespace stripped; the line is split at the first colon
only, so colons inside the value are preserved. -/
theorem c10_directive_split_first_colon :
    ∀ (c : AlbumConfig) (raw v : List Char),
      (pyStrip raw = "url:".data ++ v → (processLine c raw).url = some (pyStrip v))
      ∧ (pyStrip raw = "artist:".data ++ v → (processLine c raw).artist = some (pyStrip v))
      ∧ (pyStrip raw = "album:".data ++ v → (processLine c raw).album = some (pyStrip v))
      ∧ (pyStrip raw = "year:".data ++ v → (processLine c raw).year = some (pyStrip v)) := by
  intro c raw v
  refine ⟨?_, ?_, ?_, ?_⟩
  · intro h
    have hlit : "url:".data = 'u' :: 'r' :: 'l' :: ':' :: ([] : List Char) := rfl
    rw [hlit] at h
    simp only [List.cons_append, List.nil_append] at h
    simp only [processLine]
    rw [h]
    simp [List.isPrefixOf]
  · intro h
    have hlit : "artist:".data
        = 'a' :: 'r' :: 't' :: 'i' :: 's' :: 't' :: ':' :: ([] : List Char) := rfl
    rw [hlit] at h
    simp only [List.cons_append, List.nil_append] at h
    simp only [processLine]
    rw [h]
    simp [List.isPrefixOf]
  · intro h
    have hlit : "album:".data = 'a' :: 'l' :: 'b' :: 'u' :: 'm' :: ':' :: ([] : List Char) := rfl
    rw [hlit] at h
    simp only [List.cons_append, List.nil_append] at h
    simp only [processLine]
    rw [h]
    simp [List.isPrefixOf]
  · intro h
    have hlit : "year:".data = 'y' :: 'e' :: 'a' :: 'r' :: ':' :: ([] : List Char) := rfl
    rw [hlit] at h
    simp only [List.cons_append, List.nil_append] at h
    simp only [processLine]
    rw [h]
    simp [List.isPrefixOf]

/-- Witness for C10 at `"url: https://host/path?t=1:23"`: the stored value is
`"https://host/path?t=1:23"`, with the colons inside the value intact. -/
theorem c10_directive_split_first_colon_witness :
    (pyStrip "url: https://host/path?t=1:23".data
        = "url:".data ++ " https://host/path?t=1:23".data)
      ∧ (processLine initConfig "url: https://host/path?t=1:23".data).url
          = some (pyStrip " https://host/path?t=1:23".data)
      ∧ pyStrip " https://host/path?t=1:23".data = "https://host/path?t=1:23".data :=
  ⟨by decide,
    (c10_directive_split_first_colon initConfig "url: https://host/path?t=1:23".data
      " https://host/path?t=1:23".data).1 (by decide),
    by decide⟩

theorem dropWhile_head_false {α : Type} {p : α → Bool} :
    ∀ {l : List α} {c : α} {t : List α}, l.dropWhile p = c :: t → p c = false := by
  intro l
  induction l with
  | nil =>
    intro c t h
    exact absurd h (by simp)
  | cons a l ih =>
    intro c t h
    by_cases hp : p a = true
    · rw [List.dropWhile_cons_of_pos hp] at h
      exact ih h
    · rw [List.dropWhile_cons_of_neg hp] at h
      injection h with h1 _
      subst h1
      simpa using hp

theorem finishEntry_some (ts rest : List Char) (h : (finishEntry ts rest).isSome = true) :
    ∃ w r, w ≠ [] ∧ (∀ c ∈ w, wsChar c = true) ∧ r ≠ [] ∧ rest = w ++ r := by
  unfold finishEntry at h
  by_cases h1 : (rest.takeWhile wsChar).isEmpty = true
  · rw [if_pos h1] at h
    simp at h
  · rw [if_neg h1] at h
    by_cases h2 : (rest.dropWhile wsChar).isEmpty = true
    · rw [if_pos h2] at h
      by_cases h3 : 2 ≤ rest.length
      · have hall : rest = rest.takeWhile wsChar := by
          conv_lhs => rw [← List.takeWhile_append_dropWhile wsChar rest]
          rw [List.isEmpty_iff.mp h2, List.append_nil]
        have hws : ∀ c ∈ rest, wsChar c = true := by
          intro c hc
          rw [hall] at hc
          exact List.mem_takeWhile_imp hc
        have hne : rest ≠ [] := by
          intro hnil
          rw [hnil] at h3
          simp at h3
        refine ⟨rest.dropLast, [rest.getLast hne], ?_, ?_, by simp, ?_⟩
        · intro hdl
          have hlen := congrArg List.length hdl
          rw [List.length_dropLast] at hlen
          simp at hlen
          omega
        · intro c hc
          apply hws
          have hmem : c ∈ rest.dropLast ++ [rest.getLast hne] := List.mem_append_left _ hc
          rwa [List.dropLast_append_getLast] at hmem
        · exact (List.dropLast_append_getLast hne).symm
      · rw [if_neg h3] at h
        simp at h
    · rw [if_neg h2] at h
      refine ⟨rest.takeWhile wsChar, rest.dropWhile wsChar, ?_, ?_, ?_, ?_⟩
      · intro hnil
        rw [hnil] at h1
        exact h1 rfl
      · exact fun c hc => List.mem_takeWhile_imp hc
      · intro hnil
        rw [hnil] at h2
        exact h2 rfl
      · exact (List.takeWhile_append_dropWhile wsChar rest).symm

theorem finishEntry_of_decomp (ts w r : List Char) (hw : w ≠ [])
    (hws : ∀ c ∈ w, wsChar c = true) (hr : r ≠ []) :
    (finishEntry ts (w ++ r)).isSome = true := by
  have htw : ((w ++ r).takeWhile wsChar) = w ++ r.takeWhile wsChar :=
    takeWhile_append_all w r hws
  have hdw : ((w ++ r).dropWhile wsChar) = r.dropWhile wsChar :=
    dropWhile_append_all w r hws
  unfold finishEntry
  have h1 : ¬(((w ++ r).takeWhile wsChar).isEmpty = true) := by
    rw [htw, List.isEmpty_iff]
    intro hnil
    rcases w with _ | ⟨c, w'⟩
    · exact hw rfl
    · simp at hnil
  rw [if_neg h1]
  by_cases h2 : ((w ++ r).dropWhile wsChar).isEmpty = true
  · rw [if_pos h2]
    have h3 : 2 ≤ (w ++ r).length := by
      rw [List.length_append]
      rcases w with _ | ⟨c, w'⟩
      · exact absurd rfl hw
      · rcases r with _ | ⟨d, r'⟩
        · exact absurd rfl hr
        · simp only [List.length_cons]
          omega
    rw [if_pos h3]
    have hne : w ++ r ≠ [] := by
      rcases w with _ | ⟨c, w'⟩
      · exact absurd rfl hw
      · simp
    rw [List.getLast?_eq_getLast _ hne]
    rfl
  · rw [if_neg h2]
    rfl

theorem takeWhile_digitRun {l : List Char}
    (hne : ¬((l.takeWhile Char.isDigit).isEmpty = true)) :
    digitRun (l.takeWhile Char.isDigit) := by
  constructor
  · intro hnil
    rw [hnil] at hne
    exact hne rfl
  · exact fun c hc => List.mem_takeWhile_imp hc

theorem matchEntry_some_shape (l : List Char) (h : (matchEntry l).isSome = true) :
    entryShape l := by
  simp only [matchEntry] at h
  split at h
  · simp at h
  · next hemp1 =>
    split at h
    · simp at h
    · next c0 r1 heq1 =>
      split at h
      · next hc0 =>
        subst hc0
        split at h
        · simp at h
        · next hemp2 =>
          split at h
          · next heq2 =>
            obtain ⟨w, r, hw, _, _, hdec⟩ := finishEntry_some _ _ h
            rcases w with _ | ⟨wc, w'⟩
            · exact absurd rfl hw
            · simp at hdec
          · next c1 r2 heq2 =>
            split at h
            · next hc1 =>
              subst hc1
              split at h
              · simp at h
              · next hemp3 =>
                obtain ⟨w, r, hw, hws, hr, hdec⟩ := finishEntry_some _ _ h
                refine ⟨l.takeWhile Char.isDigit ++ ':' :: r1.takeWhile Char.isDigit
                  ++ ':' :: r2.takeWhile Char.isDigit, w, r, ?_, hw, hws, hr, ?_⟩
                · exact Or.inr ⟨_, _, _, takeWhile_digitRun hemp1, takeWhile_digitRun hemp2,
                    takeWhile_digitRun hemp3, rfl⟩
                · have e1 : l = l.takeWhile Char.isDigit ++ l.dropWhile Char.isDigit :=
                    (List.takeWhile_append_dropWhile _ _).symm
                  have e2 : r1 = r1.takeWhile Char.isDigit ++ r1.dropWhile Char.isDigit :=
                    (List.takeWhile_append_dropWhile _ _).symm
                  have e3 : r2 = r2.takeWhile Char.isDigit ++ r2.dropWhile Char.isDigit :=
                    (List.takeWhile_append_dropWhile _ _).symm
                  conv_lhs => rw [e1, heq1, e2, heq2, e3, hdec]
                  simp
            · next hc1 =>
              obtain ⟨w, r, hw, hws, hr, hdec⟩ := finishEntry_some _ _ h
              refine ⟨l.takeWhile Char.isDigit ++ ':' :: r1.takeWhile Char.isDigit,
                w, r, ?_, hw, hws, hr, ?_⟩
              · exact Or.inl ⟨_, _, takeWhile_digitRun hemp1, takeWhile_digitRun hemp2, rfl⟩
              · have e1 : l = l.takeWhile Char.isDigit ++ l.dropWhile Char.isDigit :=
                  (List.takeWhile_append_dropWhile _ _).symm
                have e2 : r1 = r1.takeWhile Char.isDigit ++ r1.dropWhile Char.isDigit :=
                  (List.takeWhile_append_dropWhile _ _).symm
                conv_lhs => rw [e1, heq1, e2, heq2, hdec]
                simp
      · next hc0 =>
        simp at h

theorem shape_matchEntry_some (l : List Char) (hs : entryShape l) :
    (matchEntry l).isSome = true := by
  obtain ⟨t, w, r, hts, hw, hws, hr, hl⟩ := hs
  rcases w with _ | ⟨wc, w'⟩
  · exact absurd rfl hw
  have hwc : wsChar wc = true := hws wc (List.mem_cons_self wc w')
  have hwcd : ¬(Char.isDigit wc = true) := by
    rw [ws_not_digit hwc]
    simp
  have hwcc : ¬(wc = ':') := ws_ne_colon hwc
  rcases hts with ⟨d1, d2, hd1, hd2, ht⟩ | ⟨d1, d2, d3, hd1, hd2, hd3, ht⟩
  · have hl' : l = d1 ++ ':' :: (d2 ++ (wc :: (w' ++ r))) := by
      rw [hl, ht]
      simp
    have htw1 : l.takeWhile Char.isDigit = d1 := by
      rw [hl', takeWhile_append_all d1 _ hd1.2,
        List.takeWhile_cons_of_neg (by decide), List.append_nil]
    have hdw1 : l.dropWhile Char.isDigit = ':' :: (d2 ++ (wc :: (w' ++ r))) := by
      rw [hl', dropWhile_append_all d1 _ hd1.2,
        List.dropWhile_cons_of_neg (by decide)]
    have htw2 : (d2 ++ (wc :: (w' ++ r))).takeWhile Char.isDigit = d2 := by
      rw [takeWhile_append_all d2 _ hd2.2,
        List.takeWhile_cons_of_neg hwcd, List.append_nil]
    have hdw2 : (d2 ++ (wc :: (w' ++ r))).dropWhile Char.isDigit = wc :: (w' ++ r) := by
      rw [dropWhile_append_all d2 _ hd2.2,
        List.dropWhile_cons_of_neg hwcd]
    have hfe : (finishEntry (d1 ++ ':' :: d2) ((wc :: w') ++ r)).isSome = true :=
      finishEntry_of_decomp _ (wc :: w') r (by simp) hws hr
    have hd1e : d1.isEmpty = false := List.isEmpty_eq_false.mpr hd1.1
    have hd2e : d2.isEmpty = false := List.isEmpty_eq_false.mpr hd2.1
    simp only [List.cons_append] at hfe
    simp only [matchEntry, htw1, hdw1, hd1e, htw2, hdw2, hd2e]
    simp [hwcc, hfe]
  · have hl' : l = d1 ++ ':' :: (d2 ++ ':' :: (d3 ++ (wc :: (w' ++ r)))) := by
      rw [hl, ht]
      simp
    have htw1 : l.takeWhile Char.isDigit = d1 := by
      rw [hl', takeWhile_append_all d1 _ hd1.2,
        List.takeWhile_cons_of_neg (by decide), List.append_nil]
    have hdw1 : l.dropWhile Char.isDigit = ':' :: (d2 ++ ':' :: (d3 ++ (wc :: (w' ++ r)))) := by
      rw [hl', dropWhile_append_all d1 _ hd1.2,
        List.dropWhile_cons_of_neg (by decide)]
    have htw2 : (d2 ++ ':' :: (d3 ++ (wc :: (w' ++ r)))).takeWhile Char.isDigit = d2 := by
      rw [takeWhile_append_all d2 _ hd2.2,
        List.takeWhile_cons_of_neg (by decide), List.append_nil]
    have hdw2 : (d2 ++ ':' :: (d3 ++ (wc :: (w' ++ r)))).dropWhile Char.isDigit
        = ':' :: (d3 ++ (wc :: (w' ++ r))) := by
      rw [dropWhile_append_all d2 _ hd2.2,
        List.dropWhile_cons_of_neg (by decide)]
    have htw3 : (d3 ++ (wc :: (w' ++ r))).takeWhile Char.isDigit = d3 := by
      rw [takeWhile_append_all d3 _ hd3.2,
        List.takeWhile_cons_of_neg hwcd, List.append_nil]
    have hdw3 : (d3 ++ (wc :: (w' ++ r))).dropWhile Char.isDigit = wc :: (w' ++ r) := by
      rw [dropWhile_append_all d3 _ hd3.2,
        List.dropWhile_cons_of_neg hwcd]
    have hfe : (finishEntry (d1 ++ ':' :: d2 ++ ':' :: d3) ((wc :: w') ++ r)).isSome = true :=
      finishEntry_of_decomp _ (wc :: w') r (by simp) hws hr
    have hd1e : d1.isEmpty = false := List.isEmpty_eq_false.mpr hd1.1
    have hd2e : d2.isEmpty = false := List.isEmpty_eq_false.mpr hd2.1
    have hd3e : d3.isEmpty = false := List.isEmpty_eq_false.mpr hd3.1
    simp only [List.cons_append, List.append_assoc] at hfe
    simp only [matchEntry, htw1, hdw1, hd1e, htw2, hdw2, hd2e, htw3, hdw3, hd3e]
    simp [hwcc, hfe]

theorem matchEntry_isSome_iff (l : List Char) :
    (matchEntry l).isSome = true ↔ entryShape l :=
  ⟨matchEntry_some_shape l, shape_matchEntry_some l⟩

theorem processLine_tracklist (c : AlbumConfig) (raw : List Char) :
    (processLine c raw).tracklist = c.tracklist ++ (entryOfLine raw).toList := by
  unfold processLine entryOfLine isDirective
  by_cases h1 : pyStrip raw = []
  · simp [h1]
  · by_cases h2 : (pyStrip raw).head? = some '#'
    · simp [h1, h2]
    · by_cases h3 : "url:".data.isPrefixOf (pyStrip raw) = true
      · simp [h1, h2, h3]
      · by_cases h4 : "artist:".data.isPrefixOf (pyStrip raw) = true
        · simp [h1, h2, h3, h4]
        · by_cases h5 : "album:".data.isPrefixOf (pyStrip raw) = true
          · simp [h1, h2, h3, h4, h5]
          · by_cases h6 : "year:".data.isPrefixOf (pyStrip raw) = true
            · simp [h1, h2, h3, h4, h5, h6]
            · cases hm : matchEntry (pyStrip raw) with
              | none => simp [h1, h2, h3, h4, h5, h6, hm]
              | some p =>
                obtain ⟨ts, title⟩ := p
                simp [h1, h2, h3, h4, h5, h6, hm]

theorem processLines_tracklist (lines : List (List Char)) :
    ∀ c : AlbumConfig,
      (processLines c lines).tracklist = c.tracklist ++ lines.filterMap entryOfLine := by
  induction lines with
  | nil =>
    intro c
    simp [processLines]
  | cons a ls ih =>
    intro c
    have hstep : processLines c (a :: ls) = processLines (processLine c a) ls := by
      simp [processLines]
    rw [hstep, ih (processLine c a), processLine_tracklist, List.filterMap_cons]
    cases entryOfLine a <;> simp

/-- C5: after blank/comment filtering and after the directive lines are taken,
a line is accepted as a tracklist entry if and only if (its stripped form)
begins with a timestamp `D+:D+` or `D+:D+:D+` followed by at least one
whitespace character and a non-empty remainder; all other lines contribute
nothing, and accepted entries appear in the config's tracklist in input
order (`filterMap` over the lines). -/
theorem c5_tracklist_line_acceptance :
    ∀ (raw : List Char) (lines : List (List Char)) (c : AlbumConfig),
      pyStrip raw ≠ [] →
      (pyStrip raw).head? ≠ some '#' →
      isDirective (pyStrip raw) = false →
      ((entryOfLine raw).isSome = true ↔ entryShape (pyStrip raw))
        ∧ (processLines c lines).tracklist = c.tracklist ++ lines.filterMap entryOfLine := by
  intro raw lines c h1 h2 h3
  constructor
  · have hred : entryOfLine raw = (match matchEntry (pyStrip raw) with
        | some (ts, title) => some (pyStrip title, ts)
        | none => none) := by
      unfold entryOfLine
      rw [if_neg h1, if_neg h2, if_neg (by simp [h3])]
    rw [hred, ← matchEntry_isSome_iff]
    cases matchEntry (pyStrip raw) with
    | none => simp
    | some p =>
      obtain ⟨ts, title⟩ := p
      simp
  · exact processLines_tracklist lines c

/-- Witness for C5: the line `"0:00  Intro"` (after a comment, a blank line
and a directive) is accepted, with entries kept in input order. -/
theorem c5_tracklist_line_acceptance_witness :
    (pyStrip "0:00  Intro".data ≠ []
      ∧ (pyStrip "0:00  Intro".data).head? ≠ some '#'
      ∧ isDirective (pyStrip "0:00  Intro".data) = false)
      ∧ (((entryOfLine "0:00  Intro".data).isSome = true
            ↔ entryShape (pyStrip "0:00  Intro".data))
          ∧ (processLines initConfig ["# comment".data, "".data, "artist: X".data,
              "0:00  Intro".data, "no timestamp".data, "2:05 Song B".data]).tracklist
            = initConfig.tracklist ++ (["# comment".data, "".data, "artist: X".data,
              "0:00  Intro".data, "no timestamp".data,
              "2:05 Song B".data].filterMap entryOfLine))
      ∧ (entryOfLine "0:00  Intro".data = some ("Intro".data, "0:00".data))
      ∧ ((processLines initConfig ["# comment".data, "".data, "artist: X".data,
            "0:00  Intro".data, "no timestamp".data, "2:05 Song B".data]).tracklist
          = [("Intro".data, "0:00".data), ("Song B".data, "2:05".data)]) :=
  ⟨⟨by decide, by decide, by decide⟩,
    c5_tracklist_line_acceptance "0:00  Intro".data
      ["# comment".data, "".data, "artist: X".data, "0:00  Intro".data,
        "no timestamp".data, "2:05 Song B".data] initConfig
      (by decide) (by decide) (by decide),
    by decide, by decide⟩
